import Mathlib

/-!
Verification development for the lighting-event synthesizer of the
simple_auto_beatsage_script repository (src/main.py).  The Python core is
embedded shallowly: note times are rationals, machine floats carry exact
rational values here, the single forward pass over notes is a structural
recursion threading the loop state, and the one runtime exception the core
can raise (ZeroDivisionError in calculate_laser_speed when a padding of 0
reaches it) is modelled with Except.
-/

namespace BeatSage

/-- A raw note record, the fields _time, _type and _cutDirection of one
element of beatmap["_notes"] in src/main.py. -/
structure NoteRec where
  time : ℚ
  type : ℤ
  cutDirection : ℤ

/-- An output lighting event, the fields _time, _type and _value of one
element of beatmap["_events"]. -/
structure Event where
  time : ℚ
  type : ℤ
  value : ℤ

/-- calculate_laser_speed from src/main.py line 163:
math.ceil((math.ceil((2 / padding) + 1) ** 2) / 4).  Division is exact
rational division here; the Python ZeroDivisionError for padding = 0 is
handled at the call site in laserStep. -/
def calculate_laser_speed (padding : ℚ) : ℤ :=
  Int.ceil (((Int.ceil (2 / padding + 1) : ℤ) : ℚ) ^ 2 / 4)

/-- The loop state of add_lighting_events: last_padding, last_time,
left_laser_next, pace_changes (a pace entry is the prefix character plus
the numeric time that the Python code renders into the string
f"{pace_prefix}{time}"), and the accumulated _events list. -/
structure SynthState where
  last_padding : ℚ
  last_time : Option ℚ
  left_laser_next : Bool
  pace_changes : List (Char × ℚ)
  events : List Event

/-- Initial loop state of add_lighting_events (lines 167-171). -/
def initState : SynthState := ⟨0, none, true, [], []⟩

/-- The inner while loop of add_lighting_events (lines 180-197): scan the
notes after the current one (time t); the leading run of notes at the same
time is looked past (the Bool result records whether at least one such
same-time neighbor exists, which both triggers the single ring-rotation
event and sets double_lasers); the result time is the time of the first
note at a different time, or twice the time of the last list element (equal
to 2 * t, since in that case every remaining note is at time t) when the
scan runs off the end. -/
def findNext (t : ℚ) : List NoteRec → Bool × ℚ
  | [] => (false, 2 * t)
  | r :: rs => if r.time = t then (true, (findNext t rs).2) else (false, r.time)

/-- The two back-light events emitted for bombs and dot notes
(lines 209-220). -/
def backlightEvents (t padding : ℚ) : List Event :=
  [⟨t, 0, if padding < 1 then 6 else 2⟩, ⟨t, 4, 0⟩]

/-- The density classification elif chain (lines 223-255): returns the pace
marker events (type 9) fired on a regime transition, the pace-change entry
recorded in that case, and light_value (light_type is 4 in every branch). -/
def classifyStep (i : ℕ) (last_padding padding t : ℚ) :
    List Event × Option (Char × ℚ) × ℤ :=
  if 2 ≤ padding then
    if last_padding < 2 ∨ i < 1 then ([⟨t, 9, 0⟩], some ('0', t), 3)
    else ([], none, 3)
  else if 1 ≤ padding then
    if last_padding < 1 ∨ 2 ≤ last_padding ∨ i < 1 then ([⟨t, 9, 0⟩], some ('a', t), 2)
    else ([], none, 2)
  else
    if 1 ≤ last_padding ∨ i < 1 then ([⟨t, 9, 0⟩], some ('b', t), 6)
    else ([], none, 6)

/-- The laser handling block (lines 269-321): laser_color is 7 for dense
notes and 3 otherwise; with double_lasers and padding at least 2 both
color events and both speed events fire and the alternation flag is not
consumed; otherwise one side fires (off event, then speed event, then the
color event on the other channel) and the flag flips.  A padding of 0
reaching calculate_laser_speed is the Python ZeroDivisionError, modelled
as the error case. -/
def laserStep (t padding : ℚ) (dbl ln : Bool) : Except Unit (List Event × Bool) :=
  if dbl = true ∧ 2 ≤ padding then
    .ok ([⟨t, 3, if padding < 1 then 7 else 3⟩, ⟨t, 2, if padding < 1 then 7 else 3⟩,
          ⟨t, 12, calculate_laser_speed padding⟩, ⟨t, 13, calculate_laser_speed padding⟩], ln)
  else if padding = 0 then .error ()
  else if ln then
    .ok ([⟨t, 3, 0⟩, ⟨t, 12, calculate_laser_speed padding⟩,
          ⟨t, 2, if padding < 1 then 7 else 3⟩], false)
  else
    .ok ([⟨t, 2, 0⟩, ⟨t, 13, calculate_laser_speed padding⟩,
          ⟨t, 3, if padding < 1 then 7 else 3⟩], true)

/-- The body of one loop iteration of add_lighting_events after the
duplicate-time skip (lines 203-324): bombs and dot notes get the two
back-light events; a bomb then stops (continue on line 222), skipping the
state update, so last_padding and last_time keep their previous values;
every other note is classified, dot notes skip the classified light pair,
and laser handling plus the state update close the iteration. -/
def noteStep (i : ℕ) (nt : NoteRec) (padding : ℚ) (dbl : Bool) (s : SynthState) :
    Except Unit SynthState :=
  if nt.cutDirection = 8 ∨ nt.type = 3 then
    if nt.type = 3 then
      .ok { s with events := s.events ++ backlightEvents nt.time padding }
    else
      match laserStep nt.time padding dbl s.left_laser_next with
      | .error e => .error e
      | .ok (levs, ln) =>
        .ok { s with
              events := s.events ++ backlightEvents nt.time padding ++ levs
              left_laser_next := ln
              last_padding := padding
              last_time := some nt.time }
  else
    match classifyStep i s.last_padding padding nt.time with
    | (cevs, pentry, lightVal) =>
      match laserStep nt.time padding dbl s.left_laser_next with
      | .error e => .error e
      | .ok (levs, ln) =>
        .ok { s with
              events := s.events ++ cevs ++
                [⟨nt.time, 4, lightVal⟩, ⟨nt.time, 0, 0⟩] ++ levs
              pace_changes := s.pace_changes ++ pentry.toList
              left_laser_next := ln
              last_padding := padding
              last_time := some nt.time }

/-- The ring-rotation emission of the lookahead scan (lines 188-194): one
event of type 8, value 0, appended when at least one same-time neighbor
follows the current note. -/
def ringPush (t : ℚ) (hasSame : Bool) (s : SynthState) : SynthState :=
  if hasSame then { s with events := s.events ++ [⟨t, 8, 0⟩] } else s

/-- The main forward pass of add_lighting_events (lines 173-324): for each
note, run the lookahead scan, emit the ring-rotation event through
ringPush when a same-time neighbor follows (this happens before the
duplicate-time check), skip notes whose time equals last_time, and
otherwise run the iteration body. -/
def runNotes : ℕ → List NoteRec → SynthState → Except Unit SynthState
  | _, [], s => .ok s
  | i, nt :: rest, s =>
    if s.last_time = some nt.time then
      runNotes (i + 1) rest (ringPush nt.time (findNext nt.time rest).1 s)
    else
      match noteStep i nt ((findNext nt.time rest).2 - nt.time) (findNext nt.time rest).1
          (ringPush nt.time (findNext nt.time rest).1 s) with
      | .error e => .error e
      | .ok s2 => runNotes (i + 1) rest s2

/-- A pace-change log entry as the post-processing loop sees it: pref is
the first character of the string (none for an empty string), tval the
numeric value of the remainder (none when float() would raise).  Entries
produced by the main pass always have both fields, since the Python
f-string renders a prefix character followed by the repr of the float,
which parses back exactly. -/
structure PaceEntry where
  pref : Option Char
  tval : Option ℚ

/-- Ring value selection of the post-processor (lines 335-338). -/
def ringValueOf (c : Char) : ℤ :=
  if c = 'a' then 3 else if c = 'b' then 7 else 0

/-- The while loop of lines 358-364, unrolled on the number of remaining
steps: emit events at cur, cur + 1, ... for n steps. -/
def sweepGo (rv : ℤ) : ℕ → ℤ → List Event
  | 0, _ => []
  | n + 1, cur => ⟨(cur : ℚ), 1, rv⟩ :: sweepGo rv n (cur + 1)

/-- The integer sweep while loop (lines 358-364): from cur while below
nxt, stepping by one. -/
def sweep (rv : ℤ) (cur nxt : ℤ) : List Event :=
  sweepGo rv (nxt - cur).toNat cur

/-- The body of one post-processing iteration (lines 327-364) for a
non-final entry: empty strings are skipped, a ring value of 0 (any prefix
other than the characters a and b) is skipped, a parse failure of the
current or the next numeric suffix is skipped, otherwise the fractional
extra event (when the exact time is not an integer) precedes the integer
sweep from the ceiling of the time up to, excluding, the ceiling of the
next entry time. -/
def ringStep (cur nxt : PaceEntry) : List Event :=
  match cur.pref with
  | none => []
  | some c =>
    if ringValueOf c = 0 then []
    else
      match cur.tval, nxt.tval with
      | some t, some tn =>
        (if (Int.ceil t : ℚ) ≠ t then [⟨t, 1, ringValueOf c⟩] else []) ++
          sweep (ringValueOf c) (Int.ceil t) (Int.ceil tn)
      | _, _ => []

/-- The post-processing loop over pace_changes (lines 327-364): each entry
is processed against its immediate successor; the final entry contributes
nothing (the loop continues at i = len - 1). -/
def ringFill : List PaceEntry → List Event
  | cur :: nxt :: rest => ringStep cur nxt ++ ringFill (nxt :: rest)
  | _ => []

/-- Conversion of a recorded pace change (prefix character, time) to the
entry the post-processor parses back; the f-string and float round trip is
exact. -/
def toPaceEntry (p : Char × ℚ) : PaceEntry := ⟨some p.1, some p.2⟩

/-- add_lighting_events (lines 166-366): run the main pass from the empty
event list, then append the ring-fill events of the pace-change
post-processor. -/
def add_lighting_events (notes : List NoteRec) : Except Unit (List Event) :=
  match runNotes 0 notes initState with
  | .error e => .error e
  | .ok s => .ok (s.events ++ ringFill (s.pace_changes.map toPaceEntry))

/-- The level document as create_light_map reads it (lines 378-390):
hasVersion records whether the key _version is present, notes is the value
of _notes when present, events the value of _events. -/
structure BeatmapDoc where
  hasVersion : Bool
  notes : Option (List NoteRec)
  events : List Event

/-- The failure modes of create_light_map: the two validation errors of
lines 384-387 (both RuntimeErrors about the document format) and the
ZeroDivisionError escaping from add_lighting_events. -/
inductive LightErr
  | missingVersion
  | missingNotes
  | zeroPadding

/-- Whether a create_light_map outcome is one of the two document-format
failures. -/
def isFormatErr : Except LightErr BeatmapDoc → Bool
  | .error .missingVersion => true
  | .error .missingNotes => true
  | _ => false

/-- The validation and rewrite of create_light_map (lines 378-390): reject
a document without the version marker, then one without the note list,
then replace the event list wholesale with the synthesizer output. -/
def create_light_map (d : BeatmapDoc) : Except LightErr BeatmapDoc :=
  if d.hasVersion = false then .error .missingVersion
  else
    match d.notes with
    | none => .error .missingNotes
    | some ns =>
      match add_lighting_events ns with
      | .error _ => .error .zeroPadding
      | .ok evs => .ok { d with events := evs }

/-- The two file-system locations create_light_map touches: the original
document path and the temporary side file (suffix .dat.tmp). -/
structure FsState where
  orig : BeatmapDoc
  tmp : Option BeatmapDoc

/-- The file-system operations of lines 392-398: write the whole new
document to the temporary file, then rename it over the original
(Path.replace, an atomic rename that installs the complete temporary
content under the original name). -/
inductive FsOp
  | writeTmp (d : BeatmapDoc)
  | renameTmpOverOrig

/-- Effect of one file-system operation. -/
def applyOp (fs : FsState) : FsOp → FsState
  | .writeTmp d => { fs with tmp := some d }
  | .renameTmpOverOrig =>
    match fs.tmp with
    | some d => ⟨d, none⟩
    | none => fs

/-- Effect of a sequence of file-system operations. -/
def applyOps (fs : FsState) (ops : List FsOp) : FsState := ops.foldl applyOp fs

/-- The file-system operations create_light_map performs on a given
document: none at all when it fails (both validation failures and the
synthesizer error are raised before the temporary file is opened), and
write-then-rename on success (lines 392-398). -/
def rewriteOps (d : BeatmapDoc) : List FsOp :=
  match create_light_map d with
  | .error _ => []
  | .ok newDoc => [.writeTmp newDoc, .renameTmpOverOrig]

/-- Count of ring-rotation trigger events (type 8) in an event list. -/
def count8 (evs : List Event) : ℕ := evs.countP (fun e => e.type == 8)

/-- Whether an event is a laser turn marker: the single-side alternation
branches of the laser block are the only emitters of an event of type 3 or
type 2 with value 0 (the double-laser branch and the color events use the
laser color 7 or 3, every other channel is a different type code). -/
def isTurn (e : Event) : Bool := (e.type == 3 || e.type == 2) && e.value == 0

/-- The sequence of laser turn markers of an event list, true for a left
turn (the type 3 off event), false for a right turn. -/
def turnMarks (evs : List Event) : List Bool :=
  (evs.filter isTurn).map (fun e => e.type == 3)

/-- Alternation checker: starting from expected value b, consume the list;
the result is the next expected value when the list strictly alternates
and none otherwise. -/
def altRun : Bool → List Bool → Option Bool
  | b, [] => some b
  | b, x :: xs => if x = b then altRun (!b) xs else none

/-- Number of adjacent note pairs at equal times; a maximal run of k equal
consecutive times contributes k - 1 such pairs. -/
def sameAdj : List NoteRec → ℕ
  | a :: b :: rest => (if b.time = a.time then 1 else 0) + sameAdj (b :: rest)
  | _ => 0

/-- Modelled from the spec (section 4.3 wording, for comparison against the
code): the contribution of one non-final pace entry: with prefix character
a the ring value is 3, with b it is 7, any other prefix contributes
nothing, as does a parse failure of either numeric suffix; a fractional
exact time gets one extra event, then one event per integer from the
ceiling of the time up to, excluding, the ceiling of the next entry
time. -/
def ringStepSpec (cur nxt : PaceEntry) : List Event :=
  match cur.pref, cur.tval, nxt.tval with
  | some c, some t, some tn =>
    if c = 'a' ∨ c = 'b' then
      (if (Int.ceil t : ℚ) ≠ t then [⟨t, 1, if c = 'a' then 3 else 7⟩] else []) ++
        (List.range (Int.ceil tn - Int.ceil t).toNat).map
          (fun k => ⟨((Int.ceil t + (k : ℤ) : ℤ) : ℚ), 1, if c = 'a' then 3 else 7⟩)
    else []
  | _, _, _ => []

/-- Modelled from the spec: the whole ring back-fill is the concatenation,
in order, of the per-entry contributions of each entry paired with its
immediate successor; the final entry is in no pair as first component and
so contributes nothing. -/
def specFill (l : List PaceEntry) : List Event :=
  (l.zip l.tail).foldr (fun p acc => ringStepSpec p.1 p.2 ++ acc) []

/-! Helper lemmas.  The first few let norm_num evaluate the embedding on
concrete inputs (the ceiling via the floor, which norm_num can compute on
rational literals, plus decidable facts it does not reduce on its own). -/

theorem ceil_via_floor (a : ℚ) : Int.ceil a = -Int.floor (-a) := by
  rw [Int.floor_neg]
  ring

theorem none_eq_some_false (a : ℚ) : ((none : Option ℚ) = some a) = False := by
  simp

theorem char_b_ne_a : ('b' = 'a') = False := by simp

theorem char_0_ne_a : ('0' = 'a') = False := by simp

theorem char_0_ne_b : ('0' = 'b') = False := by simp

theorem count8_append (a b : List Event) : count8 (a ++ b) = count8 a + count8 b := by
  simp [count8, List.countP_append]

theorem turnMarks_append (a b : List Event) :
    turnMarks (a ++ b) = turnMarks a ++ turnMarks b := by
  simp [turnMarks, List.filter_append]

theorem altRun_append (xs ys : List Bool) (b : Bool) :
    altRun b (xs ++ ys) = (altRun b xs).bind (fun c => altRun c ys) := by
  induction xs generalizing b with
  | nil => simp [altRun]
  | cons x xs ih =>
    by_cases hx : x = b
    · simp [altRun, hx, ih]
    · simp [altRun, hx]

theorem laserStep_ok {t p : ℚ} {dbl ln : Bool} {levs : List Event} {ln2 : Bool}
    (h : laserStep t p dbl ln = .ok (levs, ln2)) :
    count8 levs = 0 ∧ altRun ln (turnMarks levs) = some ln2 := by
  unfold laserStep at h
  split at h
  · simp only [Except.ok.injEq, Prod.mk.injEq] at h
    obtain ⟨h1, h2⟩ := h
    subst h1
    subst h2
    refine ⟨rfl, ?_⟩
    by_cases hp : p < 1 <;> simp [hp, turnMarks, List.filter, isTurn, altRun]
  · split at h
    · exact absurd h (by simp)
    · split at h
      · rename_i hln
        subst hln
        simp only [Except.ok.injEq, Prod.mk.injEq] at h
        obtain ⟨h1, h2⟩ := h
        subst h1
        subst h2
        refine ⟨rfl, ?_⟩
        by_cases hp : p < 1 <;> simp [hp, turnMarks, List.filter, isTurn, altRun]
      · rename_i hln
        rw [Bool.not_eq_true] at hln
        subst hln
        simp only [Except.ok.injEq, Prod.mk.injEq] at h
        obtain ⟨h1, h2⟩ := h
        subst h1
        subst h2
        refine ⟨rfl, ?_⟩
        by_cases hp : p < 1 <;> simp [hp, turnMarks, List.filter, isTurn, altRun]

theorem classifyStep_evs (i : ℕ) (lp p t : ℚ) :
    (classifyStep i lp p t).1 = [⟨t, 9, 0⟩] ∨ (classifyStep i lp p t).1 = [] := by
  unfold classifyStep
  split
  · split
    · exact Or.inl rfl
    · exact Or.inr rfl
  · split
    · split
      · exact Or.inl rfl
      · exact Or.inr rfl
    · split
      · exact Or.inl rfl
      · exact Or.inr rfl

theorem backlight_turnMarks (t p : ℚ) : turnMarks (backlightEvents t p) = [] := rfl

theorem backlight_count8 (t p : ℚ) : count8 (backlightEvents t p) = 0 := rfl

theorem noteStep_delta {i : ℕ} {nt : NoteRec} {p : ℚ} {dbl : Bool}
    {s s2 : SynthState} (h : noteStep i nt p dbl s = .ok s2) :
    ∃ d, s2.events = s.events ++ d ∧ count8 d = 0 ∧
      altRun s.left_laser_next (turnMarks d) = some s2.left_laser_next := by
  unfold noteStep at h
  split at h
  · split at h
    · simp only [Except.ok.injEq] at h
      subst h
      exact ⟨backlightEvents nt.time p, rfl, rfl, rfl⟩
    · split at h
      · exact absurd h (by simp)
      · rename_i levs ln hls
        simp only [Except.ok.injEq] at h
        subst h
        obtain ⟨hc, ha⟩ := laserStep_ok hls
        refine ⟨backlightEvents nt.time p ++ levs, by simp, ?_, ?_⟩
        · rw [count8_append, backlight_count8, hc]
        · rw [turnMarks_append, backlight_turnMarks, altRun_append]
          simpa [altRun] using ha
  · split at h
    rename_i cevs pentry lightVal hcl
    split at h
    · exact absurd h (by simp)
    · rename_i levs ln hls
      simp only [Except.ok.injEq] at h
      subst h
      obtain ⟨hc, ha⟩ := laserStep_ok hls
      refine ⟨cevs ++ [⟨nt.time, 4, lightVal⟩, ⟨nt.time, 0, 0⟩] ++ levs, by simp, ?_, ?_⟩
      · have h9 : count8 cevs = 0 := by
          rcases classifyStep_evs i s.last_padding p nt.time with he | he <;>
            rw [hcl] at he <;> simp only at he <;> subst he <;> rfl
        rw [count8_append, count8_append, h9, hc]
        rfl
      · have h9 : turnMarks cevs = [] := by
          rcases classifyStep_evs i s.last_padding p nt.time with he | he <;>
            rw [hcl] at he <;> simp only at he <;> subst he <;> rfl
        rw [turnMarks_append, turnMarks_append, h9, altRun_append, altRun_append]
        have hl : turnMarks [(⟨nt.time, 4, lightVal⟩ : Event), ⟨nt.time, 0, 0⟩] = [] := rfl
        rw [hl]
        simpa [altRun] using ha

theorem ringPush_count8 (t : ℚ) (b : Bool) (s : SynthState) :
    count8 (ringPush t b s).events = count8 s.events + (if b then 1 else 0) := by
  cases b <;> simp [ringPush, count8_append, count8]

theorem ringPush_turnMarks (t : ℚ) (b : Bool) (s : SynthState) :
    turnMarks (ringPush t b s).events = turnMarks s.events := by
  cases b <;> simp [ringPush, turnMarks_append]
  rfl

theorem ringPush_left (t : ℚ) (b : Bool) (s : SynthState) :
    (ringPush t b s).left_laser_next = s.left_laser_next := by
  cases b <;> rfl

theorem ringPush_last_time (t : ℚ) (b : Bool) (s : SynthState) :
    (ringPush t b s).last_time = s.last_time := by
  cases b <;> rfl

theorem runNotes_count8 (l : List NoteRec) :
    ∀ (i : ℕ) (s s2 : SynthState), runNotes i l s = .ok s2 →
      count8 s2.events = count8 s.events + sameAdj l := by
  induction l with
  | nil =>
    intro i s s2 h
    simp only [runNotes, Except.ok.injEq] at h
    subst h
    simp [sameAdj]
  | cons nt rest ih =>
    intro i s s2 h
    have hadj : sameAdj (nt :: rest) =
        (if (findNext nt.time rest).1 then 1 else 0) + sameAdj rest := by
      cases rest with
      | nil => simp [sameAdj, findNext]
      | cons r rs =>
        by_cases hr : r.time = nt.time <;> simp [sameAdj, findNext, hr, eq_comm]
    simp only [runNotes] at h
    split at h
    · have := ih (i + 1) _ _ h
      rw [this, ringPush_count8, hadj]
      ring
    · split at h
      · exact absurd h (by simp)
      · rename_i s3 hns
        have h2 := ih (i + 1) _ _ h
        obtain ⟨d, hd, hdc, _⟩ := noteStep_delta hns
        rw [h2, hd, count8_append, hdc, ringPush_count8, hadj]
        ring

theorem runNotes_alt (l : List NoteRec) :
    ∀ (i : ℕ) (s s2 : SynthState), runNotes i l s = .ok s2 →
      altRun true (turnMarks s.events) = some s.left_laser_next →
      altRun true (turnMarks s2.events) = some s2.left_laser_next := by
  induction l with
  | nil =>
    intro i s s2 h hs
    simp only [runNotes, Except.ok.injEq] at h
    subst h
    exact hs
  | cons nt rest ih =>
    intro i s s2 h hs
    simp only [runNotes] at h
    split at h
    · refine ih (i + 1) _ _ h ?_
      rw [ringPush_turnMarks, ringPush_left]
      exact hs
    · split at h
      · exact absurd h (by simp)
      · rename_i s3 hns
        refine ih (i + 1) _ _ h ?_
        obtain ⟨d, hd, _, hda⟩ := noteStep_delta hns
        rw [hd, turnMarks_append, altRun_append, ringPush_turnMarks, hs]
        rw [ringPush_left] at hda
        simpa using hda

theorem sweepGo_types (rv : ℤ) :
    ∀ (n : ℕ) (cur : ℤ) (e : Event), e ∈ sweepGo rv n cur → e.type = 1 := by
  intro n
  induction n with
  | zero =>
    intro cur e he
    simp [sweepGo] at he
  | succ n ih =>
    intro cur e he
    simp only [sweepGo, List.mem_cons] at he
    rcases he with he | he
    · subst he
      rfl
    · exact ih (cur + 1) e he

theorem ringStep_types (cur nxt : PaceEntry) :
    ∀ e ∈ ringStep cur nxt, e.type = 1 := by
  intro e he
  unfold ringStep at he
  split at he
  · simp at he
  · split at he
    · simp at he
    · split at he
      · simp only [List.mem_append] at he
        rcases he with he | he
        · split at he
          · simp only [List.mem_singleton] at he
            subst he
            rfl
          · simp at he
        · exact sweepGo_types _ _ _ e he
      · simp at he

theorem ringFill_types (l : List PaceEntry) : ∀ e ∈ ringFill l, e.type = 1 := by
  induction l with
  | nil =>
    intro e he
    simp [ringFill] at he
  | cons cur rest ih =>
    cases rest with
    | nil =>
      intro e he
      simp [ringFill] at he
    | cons nxt rest2 =>
      intro e he
      simp only [ringFill, List.mem_append] at he
      rcases he with he | he
      · exact ringStep_types cur nxt e he
      · exact ih e he

theorem ringFill_count8 (l : List PaceEntry) : count8 (ringFill l) = 0 := by
  simp only [count8, List.countP_eq_zero]
  intro e he
  have := ringFill_types l e he
  simp [this]

theorem sweepGo_eq (rv : ℤ) :
    ∀ (n : ℕ) (cur : ℤ), sweepGo rv n cur =
      (List.range n).map (fun k : ℕ => (⟨((cur + (k : ℤ) : ℤ) : ℚ), 1, rv⟩ : Event)) := by
  intro n
  induction n with
  | zero =>
    intro cur
    simp [sweepGo]
  | succ n ih =>
    intro cur
    rw [List.range_succ_eq_map, List.map_cons, List.map_map]
    show (⟨(cur : ℚ), 1, rv⟩ : Event) :: sweepGo rv n (cur + 1) = _
    rw [ih (cur + 1)]
    congr 1
    · congr 1
      push_cast
      ring
    · refine List.map_congr_left ?_
      intro k _
      simp only [Function.comp_apply]
      congr 1
      push_cast
      ring

theorem ringStep_eq_spec (cur nxt : PaceEntry) : ringStep cur nxt = ringStepSpec cur nxt := by
  rcases cur with ⟨cp, ct⟩
  rcases nxt with ⟨np, nv⟩
  cases cp with
  | none => rfl
  | some c =>
    cases ct with
    | none =>
      show (if ringValueOf c = 0 then [] else []) = []
      exact ite_self []
    | some t =>
      cases nv with
      | none =>
        show (if ringValueOf c = 0 then [] else []) = []
        exact ite_self []
      | some tn =>
        show (if ringValueOf c = 0 then [] else
          (if (Int.ceil t : ℚ) ≠ t then [⟨t, 1, ringValueOf c⟩] else []) ++
            sweep (ringValueOf c) (Int.ceil t) (Int.ceil tn)) =
          ringStepSpec ⟨some c, some t⟩ ⟨np, some tn⟩
        by_cases hca : c = 'a'
        · subst hca
          norm_num [ringValueOf, ringStepSpec, sweep, sweepGo_eq]
        · by_cases hcb : c = 'b'
          · subst hcb
            norm_num [ringValueOf, ringStepSpec, sweep, sweepGo_eq, char_b_ne_a]
          · norm_num [ringValueOf, ringStepSpec, hca, hcb]

theorem ringFill_eq_specFill (l : List PaceEntry) : ringFill l = specFill l := by
  induction l with
  | nil => rfl
  | cons cur rest ih =>
    cases rest with
    | nil => rfl
    | cons nxt rest2 =>
      show ringStep cur nxt ++ ringFill (nxt :: rest2) =
        ringStepSpec cur nxt ++ specFill (nxt :: rest2)
      rw [← ih, ringStep_eq_spec]

theorem ringFill_turnMarks (l : List PaceEntry) : turnMarks (ringFill l) = [] := by
  have : List.filter isTurn (ringFill l) = [] := by
    rw [List.filter_eq_nil_iff]
    intro e he
    have := ringFill_types l e he
    simp [isTurn, this]
  simp [turnMarks, this]

theorem noteStep_bomb (i : ℕ) (nt : NoteRec) (p : ℚ) (dbl : Bool) (s : SynthState)
    (h3 : nt.type = 3) :
    noteStep i nt p dbl s = .ok { s with events := s.events ++ backlightEvents nt.time p } := by
  unfold noteStep
  rw [if_pos (Or.inr h3), if_pos h3]

/-! Claim theorems. -/

/-- Claim C2, counterexample: the claim asserts calcSpeed(1) = 4 and
calcSpeed(2) = 2, but the formula of the code gives
calculate_laser_speed 1 = ceil(9/4) = 3 and calculate_laser_speed 2 =
ceil(4/4) = 1. -/
theorem C2_counterexample :
    calculate_laser_speed 1 = 3 ∧ ¬ calculate_laser_speed 1 = 4 ∧
    calculate_laser_speed 2 = 1 ∧ ¬ calculate_laser_speed 2 = 2 := by
  norm_num [calculate_laser_speed, ceil_via_floor]

/-- Claim C2, amended: with the formula of the code,
calcSpeed(gap) = ceil((ceil(2 / gap + 1)) ^ 2 / 4), the sample values are
calcSpeed(1) = 3, calcSpeed(2) = 1 and calcSpeed(1/2) = ceil(25/4) = 7
(only the last sample value of the claim is right). -/
theorem C2_amended :
    calculate_laser_speed 1 = 3 ∧ calculate_laser_speed 2 = 1 ∧
    calculate_laser_speed (1/2) = 7 := by
  norm_num [calculate_laser_speed, ceil_via_floor]

/-- Claim C9: calculate_laser_speed is monotonically non-increasing on
positive gaps, and its value is at least 1 for every positive gap. -/
theorem C9_speed_monotone :
    (∀ g1 g2 : ℚ, 0 < g1 → g1 ≤ g2 →
      calculate_laser_speed g2 ≤ calculate_laser_speed g1) ∧
    (∀ g : ℚ, 0 < g → 1 ≤ calculate_laser_speed g) := by
  have inner_two : ∀ g : ℚ, 0 < g → (2 : ℤ) ≤ Int.ceil (2 / g + 1) := by
    intro g hg
    have hpos : 0 < 2 / g := by positivity
    have h1 : ((1 : ℤ) : ℚ) < 2 / g + 1 := by push_cast; linarith
    have := Int.lt_ceil.mpr h1
    omega
  constructor
  · intro g1 g2 h1 h12
    have h2 : 0 < g2 := lt_of_lt_of_le h1 h12
    have hdiv : 2 / g2 ≤ 2 / g1 := by gcongr
    have hinner : Int.ceil ((2 : ℚ) / g2 + 1) ≤ Int.ceil ((2 : ℚ) / g1 + 1) :=
      Int.ceil_le_ceil (by linarith)
    have hpos2 : (0 : ℤ) ≤ Int.ceil ((2 : ℚ) / g2 + 1) :=
      le_trans (by norm_num) (inner_two g2 h2)
    have hsq : (Int.ceil ((2 : ℚ) / g2 + 1)) ^ 2 ≤ (Int.ceil ((2 : ℚ) / g1 + 1)) ^ 2 :=
      pow_le_pow_left₀ hpos2 hinner 2
    unfold calculate_laser_speed
    apply Int.ceil_le_ceil
    have hq : ((Int.ceil ((2 : ℚ) / g2 + 1) : ℤ) : ℚ) ^ 2 ≤
        ((Int.ceil ((2 : ℚ) / g1 + 1) : ℤ) : ℚ) ^ 2 := by exact_mod_cast hsq
    linarith
  · intro g hg
    have h2 := inner_two g hg
    have hq : (2 : ℚ) ≤ ((Int.ceil ((2 : ℚ) / g + 1) : ℤ) : ℚ) := by exact_mod_cast h2
    unfold calculate_laser_speed
    have hx : (0 : ℚ) < ((Int.ceil ((2 : ℚ) / g + 1) : ℤ) : ℚ) ^ 2 / 4 := by nlinarith
    have := Int.ceil_pos.mpr hx
    omega

/-- Claim C9, witness at the gaps 1 and 2. -/
theorem C9_speed_monotone_witness :
    calculate_laser_speed 2 ≤ calculate_laser_speed 1 ∧
    1 ≤ calculate_laser_speed 1 :=
  ⟨C9_speed_monotone.1 1 2 (by norm_num) (by norm_num),
   C9_speed_monotone.2 1 (by norm_num)⟩

/-- Claim C6: the post-processing loop of the code (ringFill, translated
from the while loop) agrees with the per-entry description of the spec
(specFill): processed in order, an entry with prefix 0 contributes
nothing, an entry with a parse failure of its own or of the next numeric
suffix contributes nothing, the final entry contributes nothing, and the
a or b entries contribute the fractional extra event followed by the
integer sweep from the ceiling of the time up to, excluding, the ceiling
of the next entry time. -/
theorem C6_ring_fill :
    (∀ l : List PaceEntry, ringFill l = specFill l) ∧
    (∀ cur nxt : PaceEntry, cur.pref = some '0' → ringStep cur nxt = []) ∧
    (∀ cur nxt : PaceEntry, cur.tval = none ∨ nxt.tval = none → ringStep cur nxt = []) ∧
    (∀ x : PaceEntry, ringFill [x] = []) := by
  refine ⟨ringFill_eq_specFill, ?_, ?_, fun x => rfl⟩
  · intro cur nxt h
    rcases cur with ⟨cp, ct⟩
    simp only at h
    subst h
    rw [ringStep_eq_spec]
    cases ct with
    | none => rfl
    | some t =>
      rcases nxt with ⟨np, nv⟩
      cases nv with
      | none => rfl
      | some tn => simp [ringStepSpec, char_0_ne_a, char_0_ne_b]
  · intro cur nxt h
    rw [ringStep_eq_spec]
    rcases cur with ⟨cp, ct⟩
    rcases nxt with ⟨np, nv⟩
    rcases h with h | h
    · simp only at h
      subst h
      cases cp with
      | none => rfl
      | some c => rfl
    · simp only at h
      subst h
      cases cp with
      | none => rfl
      | some c =>
        cases ct with
        | none => rfl
        | some t => rfl

/-- Claim C6, witness: a dense-onset entry followed by a sparse entry. -/
theorem C6_ring_fill_witness :
    ringFill [⟨some 'b', some (1/2)⟩, ⟨some '0', some 3⟩] =
      specFill [⟨some 'b', some (1/2)⟩, ⟨some '0', some 3⟩] :=
  C6_ring_fill.1 [⟨some 'b', some (1/2)⟩, ⟨some '0', some 3⟩]

/-- Claim C7: create_light_map fails with one of the two format errors
exactly when the version marker is absent or the note list is absent; on
any failure it performs no file-system operation, so the original document
is unchanged; on success it replaces the event list wholesale and persists
by a temporary-file write followed by a rename, so after every prefix of
its operations the original name holds either the old document or the
complete new one. -/
theorem C7_document_rewriter (d : BeatmapDoc) (n : ℕ) :
    (isFormatErr (create_light_map d) = true ↔
      (d.hasVersion = false ∨ d.notes = none)) ∧
    ((create_light_map d).isOk = false → rewriteOps d = []) ∧
    ((applyOps ⟨d, none⟩ ((rewriteOps d).take n)).orig = d ∨
      create_light_map d = .ok ((applyOps ⟨d, none⟩ ((rewriteOps d).take n)).orig)) ∧
    (∀ d2, create_light_map d = .ok d2 →
      applyOps ⟨d, none⟩ (rewriteOps d) = ⟨d2, none⟩ ∧
      ∃ ns evs, d.notes = some ns ∧ add_lighting_events ns = .ok evs ∧
        d2 = { d with events := evs }) := by
  rcases d with ⟨hv, dn, evs0⟩
  cases hv with
  | false =>
    refine ⟨by simp [create_light_map, isFormatErr], fun _ => rfl, ?_, ?_⟩
    · left
      simp [create_light_map, rewriteOps, applyOps]
    · intro d2 h
      simp [create_light_map] at h
  | true =>
    cases dn with
    | none =>
      refine ⟨by simp [create_light_map, isFormatErr], fun _ => rfl, ?_, ?_⟩
      · left
        simp [create_light_map, rewriteOps, applyOps]
      · intro d2 h
        simp [create_light_map] at h
    | some ns =>
      cases hadd : add_lighting_events ns with
      | error e =>
        refine ⟨?_, fun _ => ?_, ?_, ?_⟩
        · simp [create_light_map, hadd, isFormatErr]
        · simp [rewriteOps, create_light_map, hadd]
        · left
          simp [create_light_map, rewriteOps, hadd, applyOps]
        · intro d2 h
          simp [create_light_map, hadd] at h
      | ok evs =>
        have hc : create_light_map ⟨true, some ns, evs0⟩ =
            .ok { hasVersion := true, notes := some ns, events := evs } := by
          simp [create_light_map, hadd]
        refine ⟨?_, ?_, ?_, ?_⟩
        · simp [hc, isFormatErr]
        · intro h
          rw [hc] at h
          simp [Except.isOk, Except.toBool] at h
        · match n with
          | 0 => exact Or.inl rfl
          | 1 =>
            left
            simp [rewriteOps, hc, applyOps, applyOp]
          | (m + 2) =>
            right
            rw [hc]
            simp [rewriteOps, hc, applyOps, applyOp]
        · intro d2 h
          rw [hc] at h
          simp only [Except.ok.injEq] at h
          subst h
          refine ⟨?_, ns, evs, rfl, hadd, rfl⟩
          simp [rewriteOps, hc, applyOps, applyOp]

/-- Claim C7, witness: a document missing the version marker, checked
after both prefixes of the (empty) operation list. -/
theorem C7_document_rewriter_witness :
    (applyOps ⟨⟨false, none, []⟩, none⟩
        ((rewriteOps ⟨false, none, []⟩).take 2)).orig = ⟨false, none, []⟩ ∨
      create_light_map ⟨false, none, []⟩ = .ok ((applyOps ⟨⟨false, none, []⟩, none⟩
        ((rewriteOps ⟨false, none, []⟩).take 2)).orig) :=
  (C7_document_rewriter ⟨false, none, []⟩ 2).2.2.1

/-- Claim C1, counterexample: a lone dot note (cutDirection 8, type 0)
produces five events, not two: the two back-light events are followed by
three laser events (off event type 3, speed event type 12, color event
type 2), because the code falls through to laser handling for dot
notes. -/
theorem C1_counterexample :
    add_lighting_events [⟨1, 0, 8⟩] =
      .ok [⟨1, 0, 2⟩, ⟨1, 4, 0⟩, ⟨1, 3, 0⟩, ⟨1, 12, 3⟩, ⟨1, 2, 3⟩] ∧
    ¬ ([(⟨1, 0, 2⟩ : Event), ⟨1, 4, 0⟩, ⟨1, 3, 0⟩, ⟨1, 12, 3⟩, ⟨1, 2, 3⟩].length = 2) ∧
    ((⟨1, 3, 0⟩ : Event) ∈
      [(⟨1, 0, 2⟩ : Event), ⟨1, 4, 0⟩, ⟨1, 3, 0⟩, ⟨1, 12, 3⟩, ⟨1, 2, 3⟩]) := by
  refine ⟨?_, by norm_num, by simp⟩
  norm_num [add_lighting_events, runNotes, findNext, noteStep, classifyStep, laserStep,
    calculate_laser_speed, backlightEvents, initState, ringPush, ringFill, ringStep,
    sweep, sweepGo, ringValueOf, toPaceEntry, ceil_via_floor, none_eq_some_false,
    char_0_ne_a, char_0_ne_b, char_b_ne_a, Option.some.injEq]

/-- Claim C1, amended: a non-duplicate dot note (cutDirection 8, type not
3) without double lasers and with a nonzero gap contributes exactly five
events: the two back-light events and then the three events of one laser
alternation turn; it records no pace entry and emits no pace marker or
classified light pair, and it does update the carried state. -/
theorem C1_amended_dot (i : ℕ) (nt : NoteRec) (p : ℚ) (s : SynthState)
    (h8 : nt.cutDirection = 8) (h3 : ¬ nt.type = 3) (hp : ¬ p = 0) :
    noteStep i nt p false s = .ok { s with
      events := s.events ++ backlightEvents nt.time p ++
        (if s.left_laser_next then
          [⟨nt.time, 3, 0⟩, ⟨nt.time, 12, calculate_laser_speed p⟩,
           ⟨nt.time, 2, if p < 1 then 7 else 3⟩]
         else
          [⟨nt.time, 2, 0⟩, ⟨nt.time, 13, calculate_laser_speed p⟩,
           ⟨nt.time, 3, if p < 1 then 7 else 3⟩])
      left_laser_next := !s.left_laser_next
      last_padding := p
      last_time := some nt.time } := by
  unfold noteStep laserStep
  rw [if_pos (Or.inl h8), if_neg h3,
    if_neg (by simp : ¬ ((false = true) ∧ 2 ≤ p)), if_neg hp]
  cases hln : s.left_laser_next <;> simp

/-- Claim C1, witness for the amended statement at a lone dot note. -/
theorem C1_amended_dot_witness :
    noteStep 0 ⟨1, 0, 8⟩ 1 false initState = .ok { initState with
      events := initState.events ++ backlightEvents 1 1 ++
        (if initState.left_laser_next then
          [⟨1, 3, 0⟩, ⟨1, 12, calculate_laser_speed 1⟩,
           ⟨1, 2, if (1 : ℚ) < 1 then 7 else 3⟩]
         else
          [⟨1, 2, 0⟩, ⟨1, 13, calculate_laser_speed 1⟩,
           ⟨1, 3, if (1 : ℚ) < 1 then 7 else 3⟩])
      left_laser_next := !initState.left_laser_next
      last_padding := 1
      last_time := some 1 } :=
  C1_amended_dot 0 ⟨1, 0, 8⟩ 1 initState rfl (by decide) (by norm_num)

/-- Claim C3, counterexample: a same-time cluster of three notes at time 1
(followed by one note at time 2) yields two ring-rotation trigger events
(type 8), not one: the first and the second note of the cluster each emit
one during their lookahead scan. -/
theorem C3_counterexample :
    add_lighting_events [⟨1, 0, 0⟩, ⟨1, 0, 0⟩, ⟨1, 0, 0⟩, ⟨2, 0, 0⟩] =
      .ok [⟨1, 8, 0⟩, ⟨1, 9, 0⟩, ⟨1, 4, 2⟩, ⟨1, 0, 0⟩, ⟨1, 3, 0⟩, ⟨1, 12, 3⟩, ⟨1, 2, 3⟩,
           ⟨1, 8, 0⟩, ⟨2, 9, 0⟩, ⟨2, 4, 3⟩, ⟨2, 0, 0⟩, ⟨2, 2, 0⟩, ⟨2, 13, 1⟩, ⟨2, 3, 3⟩,
           ⟨1, 1, 3⟩] ∧
    count8 [⟨1, 8, 0⟩, ⟨1, 9, 0⟩, ⟨1, 4, 2⟩, ⟨1, 0, 0⟩, ⟨1, 3, 0⟩, ⟨1, 12, 3⟩, ⟨1, 2, 3⟩,
            ⟨1, 8, 0⟩, ⟨2, 9, 0⟩, ⟨2, 4, 3⟩, ⟨2, 0, 0⟩, ⟨2, 2, 0⟩, ⟨2, 13, 1⟩, ⟨2, 3, 3⟩,
            ⟨1, 1, 3⟩] = 2 ∧
    ¬ count8 [⟨1, 8, 0⟩, ⟨1, 9, 0⟩, ⟨1, 4, 2⟩, ⟨1, 0, 0⟩, ⟨1, 3, 0⟩, ⟨1, 12, 3⟩, ⟨1, 2, 3⟩,
              ⟨1, 8, 0⟩, ⟨2, 9, 0⟩, ⟨2, 4, 3⟩, ⟨2, 0, 0⟩, ⟨2, 2, 0⟩, ⟨2, 13, 1⟩, ⟨2, 3, 3⟩,
              ⟨1, 1, 3⟩] = 1 := by
  refine ⟨?_, rfl, by norm_num [count8]⟩
  norm_num [add_lighting_events, runNotes, findNext, noteStep, classifyStep, laserStep,
    calculate_laser_speed, backlightEvents, initState, ringPush, ringFill, ringStep,
    sweep, sweepGo, ringValueOf, toPaceEntry, ceil_via_floor, none_eq_some_false,
    char_0_ne_a, char_0_ne_b, char_b_ne_a, Option.some.injEq]

/-- Claim C3, amended: the output holds one ring-rotation trigger event
(type 8) for every note immediately followed by a note at the same time;
a maximal same-time cluster of size k therefore contributes k - 1 such
events (one for a cluster of two, more for larger clusters), and every
type 8 event arises this way. -/
theorem C3_amended_ring_count (notes : List NoteRec) (evs : List Event)
    (h : add_lighting_events notes = .ok evs) : count8 evs = sameAdj notes := by
  unfold add_lighting_events at h
  split at h
  · exact absurd h (by simp)
  · rename_i s hr
    simp only [Except.ok.injEq] at h
    subst h
    rw [count8_append, ringFill_count8, runNotes_count8 notes 0 initState s hr]
    simp [initState, count8]

/-- Claim C3, witness for the amended statement: a cluster of two notes at
time 1 followed by a note at time 2 gives one adjacent same-time pair. -/
theorem C3_amended_ring_count_witness :
    count8 [⟨1, 8, 0⟩, ⟨1, 9, 0⟩, ⟨1, 4, 2⟩, ⟨1, 0, 0⟩, ⟨1, 3, 0⟩, ⟨1, 12, 3⟩, ⟨1, 2, 3⟩,
            ⟨2, 9, 0⟩, ⟨2, 4, 3⟩, ⟨2, 0, 0⟩, ⟨2, 2, 0⟩, ⟨2, 13, 1⟩, ⟨2, 3, 3⟩, ⟨1, 1, 3⟩] =
      sameAdj [⟨1, 0, 0⟩, ⟨1, 0, 0⟩, ⟨2, 0, 0⟩] :=
  C3_amended_ring_count [⟨1, 0, 0⟩, ⟨1, 0, 0⟩, ⟨2, 0, 0⟩] _ (by
    norm_num [add_lighting_events, runNotes, findNext, noteStep, classifyStep, laserStep,
      calculate_laser_speed, backlightEvents, initState, ringPush, ringFill, ringStep,
      sweep, sweepGo, ringValueOf, toPaceEntry, ceil_via_floor, none_eq_some_false,
      char_0_ne_a, char_0_ne_b, char_b_ne_a, Option.some.injEq])

/-- Claim C4, counterexample: a bomb (type 3) at time 1 followed by a note
at the same time emits three events during its own loop iteration, not
two: the lookahead scan emits the ring-rotation trigger (type 8) before
the two back-light events, so the output starts with those three events
(the remaining six belong to the second note). -/
theorem C4_counterexample :
    add_lighting_events [⟨1, 3, 0⟩, ⟨1, 0, 5⟩] =
      .ok [⟨1, 8, 0⟩, ⟨1, 0, 2⟩, ⟨1, 4, 0⟩, ⟨1, 9, 0⟩, ⟨1, 4, 2⟩, ⟨1, 0, 0⟩,
           ⟨1, 3, 0⟩, ⟨1, 12, 3⟩, ⟨1, 2, 3⟩] ∧
    ([(⟨1, 8, 0⟩ : Event), ⟨1, 0, 2⟩, ⟨1, 4, 0⟩, ⟨1, 9, 0⟩, ⟨1, 4, 2⟩, ⟨1, 0, 0⟩,
      ⟨1, 3, 0⟩, ⟨1, 12, 3⟩, ⟨1, 2, 3⟩].take 3 = [⟨1, 8, 0⟩, ⟨1, 0, 2⟩, ⟨1, 4, 0⟩]) ∧
    count8 [⟨1, 8, 0⟩, ⟨1, 0, 2⟩, ⟨1, 4, 0⟩, ⟨1, 9, 0⟩, ⟨1, 4, 2⟩, ⟨1, 0, 0⟩,
            ⟨1, 3, 0⟩, ⟨1, 12, 3⟩, ⟨1, 2, 3⟩] = 1 := by
  refine ⟨?_, rfl, rfl⟩
  norm_num [add_lighting_events, runNotes, findNext, noteStep, classifyStep, laserStep,
    calculate_laser_speed, backlightEvents, initState, ringPush, ringFill, ringStep,
    sweep, sweepGo, ringValueOf, toPaceEntry, ceil_via_floor, none_eq_some_false,
    char_0_ne_a, char_0_ne_b, char_b_ne_a, Option.some.injEq]

/-- Claim C4, amended: one loop iteration on a non-duplicate bomb appends
exactly the ring-rotation trigger of the lookahead scan (present exactly
when the next note shares its time) followed by the two back-light events,
and changes nothing else: no laser, pace or classified light events, no
pace entry, and no update of the carried state. -/
theorem C4_amended_bomb (i : ℕ) (nt : NoteRec) (rest : List NoteRec) (s : SynthState)
    (h3 : nt.type = 3) (hdup : ¬ s.last_time = some nt.time) :
    runNotes i (nt :: rest) s = runNotes (i + 1) rest
      { s with events := s.events ++
          (if (findNext nt.time rest).1 then [⟨nt.time, 8, 0⟩] else []) ++
          backlightEvents nt.time ((findNext nt.time rest).2 - nt.time) } := by
  simp only [runNotes]
  rw [if_neg hdup, noteStep_bomb i nt ((findNext nt.time rest).2 - nt.time)
    (findNext nt.time rest).1 (ringPush nt.time (findNext nt.time rest).1 s) h3]
  cases hb : (findNext nt.time rest).1 <;> simp [ringPush]

/-- Claim C4, witness for the amended statement: a bomb at time 1 with a
same-time successor, started from the initial state. -/
theorem C4_amended_bomb_witness :
    runNotes 0 [⟨1, 3, 0⟩, ⟨1, 0, 5⟩] initState = runNotes 1 [⟨1, 0, 5⟩]
      { initState with events := initState.events ++
          (if (findNext 1 [⟨1, 0, 5⟩]).1 then [⟨1, 8, 0⟩] else []) ++
          backlightEvents 1 ((findNext 1 [⟨1, 0, 5⟩]).2 - 1) } :=
  C4_amended_bomb 0 ⟨1, 3, 0⟩ [⟨1, 0, 5⟩] initState rfl (by simp [initState])

/-- Claim C5, counterexample: on the three-note input of the claim the
post-processor emits no ring event at the integer beats 1 and 2; the only
type 1 event in the whole output is at time 0 with value 7 (the
dense-onset entry back-fills, the sparse entry has prefix 0 and is also
the final log entry, so the sparse span gets no ring fill). -/
theorem C5_counterexample :
    add_lighting_events [⟨0, 0, 0⟩, ⟨1/2, 0, 0⟩, ⟨3, 0, 0⟩] =
      .ok [⟨0, 9, 0⟩, ⟨0, 4, 6⟩, ⟨0, 0, 0⟩, ⟨0, 3, 0⟩, ⟨0, 12, 7⟩, ⟨0, 2, 7⟩,
           ⟨1/2, 9, 0⟩, ⟨1/2, 4, 3⟩, ⟨1/2, 0, 0⟩, ⟨1/2, 2, 0⟩, ⟨1/2, 13, 1⟩, ⟨1/2, 3, 3⟩,
           ⟨3, 4, 3⟩, ⟨3, 0, 0⟩, ⟨3, 3, 0⟩, ⟨3, 12, 1⟩, ⟨3, 2, 3⟩, ⟨0, 1, 7⟩] ∧
    List.filter (fun e => e.type == 1)
      [(⟨0, 9, 0⟩ : Event), ⟨0, 4, 6⟩, ⟨0, 0, 0⟩, ⟨0, 3, 0⟩, ⟨0, 12, 7⟩, ⟨0, 2, 7⟩,
       ⟨1/2, 9, 0⟩, ⟨1/2, 4, 3⟩, ⟨1/2, 0, 0⟩, ⟨1/2, 2, 0⟩, ⟨1/2, 13, 1⟩, ⟨1/2, 3, 3⟩,
       ⟨3, 4, 3⟩, ⟨3, 0, 0⟩, ⟨3, 3, 0⟩, ⟨3, 12, 1⟩, ⟨3, 2, 3⟩, ⟨0, 1, 7⟩] =
      [⟨0, 1, 7⟩] := by
  refine ⟨?_, rfl⟩
  norm_num [add_lighting_events, runNotes, findNext, noteStep, classifyStep, laserStep,
    calculate_laser_speed, backlightEvents, initState, ringPush, ringFill, ringStep,
    sweep, sweepGo, ringValueOf, toPaceEntry, ceil_via_floor, none_eq_some_false,
    char_0_ne_a, char_0_ne_b, char_b_ne_a, Option.some.injEq]

/-- Claim C5, amended: the gaps are 1/2 (dense), 5/2 (sparse) and the
synthetic 3 for the tail note; the pace markers (type 9) are emitted at
times 0 and 1/2 as the claim says; but the ring back-fill over the sparse
span does not happen: the only ring event (type 1) is at time 0, value 7,
from the dense-onset pace entry. -/
theorem C5_amended :
    ((findNext 0 [⟨1/2, 0, 0⟩, ⟨3, 0, 0⟩]).2 - 0 = 1/2) ∧
    ((findNext (1/2) [⟨3, 0, 0⟩]).2 - 1/2 = 5/2) ∧
    ((findNext 3 []).2 - 3 = 3) ∧
    add_lighting_events [⟨0, 0, 0⟩, ⟨1/2, 0, 0⟩, ⟨3, 0, 0⟩] =
      .ok [⟨0, 9, 0⟩, ⟨0, 4, 6⟩, ⟨0, 0, 0⟩, ⟨0, 3, 0⟩, ⟨0, 12, 7⟩, ⟨0, 2, 7⟩,
           ⟨1/2, 9, 0⟩, ⟨1/2, 4, 3⟩, ⟨1/2, 0, 0⟩, ⟨1/2, 2, 0⟩, ⟨1/2, 13, 1⟩, ⟨1/2, 3, 3⟩,
           ⟨3, 4, 3⟩, ⟨3, 0, 0⟩, ⟨3, 3, 0⟩, ⟨3, 12, 1⟩, ⟨3, 2, 3⟩, ⟨0, 1, 7⟩] ∧
    List.filter (fun e => e.type == 9)
      [(⟨0, 9, 0⟩ : Event), ⟨0, 4, 6⟩, ⟨0, 0, 0⟩, ⟨0, 3, 0⟩, ⟨0, 12, 7⟩, ⟨0, 2, 7⟩,
       ⟨1/2, 9, 0⟩, ⟨1/2, 4, 3⟩, ⟨1/2, 0, 0⟩, ⟨1/2, 2, 0⟩, ⟨1/2, 13, 1⟩, ⟨1/2, 3, 3⟩,
       ⟨3, 4, 3⟩, ⟨3, 0, 0⟩, ⟨3, 3, 0⟩, ⟨3, 12, 1⟩, ⟨3, 2, 3⟩, ⟨0, 1, 7⟩] =
      [⟨0, 9, 0⟩, ⟨1/2, 9, 0⟩] ∧
    List.filter (fun e => e.type == 1)
      [(⟨0, 9, 0⟩ : Event), ⟨0, 4, 6⟩, ⟨0, 0, 0⟩, ⟨0, 3, 0⟩, ⟨0, 12, 7⟩, ⟨0, 2, 7⟩,
       ⟨1/2, 9, 0⟩, ⟨1/2, 4, 3⟩, ⟨1/2, 0, 0⟩, ⟨1/2, 2, 0⟩, ⟨1/2, 13, 1⟩, ⟨1/2, 3, 3⟩,
       ⟨3, 4, 3⟩, ⟨3, 0, 0⟩, ⟨3, 3, 0⟩, ⟨3, 12, 1⟩, ⟨3, 2, 3⟩, ⟨0, 1, 7⟩] =
      [⟨0, 1, 7⟩] := by
  refine ⟨by norm_num [findNext], by norm_num [findNext], by norm_num [findNext],
    ?_, rfl, rfl⟩
  norm_num [add_lighting_events, runNotes, findNext, noteStep, classifyStep, laserStep,
    calculate_laser_speed, backlightEvents, initState, ringPush, ringFill, ringStep,
    sweep, sweepGo, ringValueOf, toPaceEntry, ceil_via_floor, none_eq_some_false,
    char_0_ne_a, char_0_ne_b, char_b_ne_a, Option.some.injEq]

/-- Claim C8: in every successful run the laser turn markers (the off
events of type 3 or type 2 with value 0, the only such events in the
output) strictly alternate starting with the left channel, and a
double-laser note (flagged with a same-time sibling, gap at least 2) emits
both color events (types 3 and 2, value 3, the laser color for such a gap)
and both speed events (types 12 and 13) while leaving the alternation flag
untouched. -/
theorem C8_alternation :
    (∀ (notes : List NoteRec) (evs : List Event), add_lighting_events notes = .ok evs →
      ∃ b, altRun true (turnMarks evs) = some b) ∧
    (∀ (t p : ℚ) (ln : Bool), 2 ≤ p →
      laserStep t p true ln = .ok ([⟨t, 3, 3⟩, ⟨t, 2, 3⟩,
        ⟨t, 12, calculate_laser_speed p⟩, ⟨t, 13, calculate_laser_speed p⟩], ln)) := by
  constructor
  · intro notes evs h
    unfold add_lighting_events at h
    split at h
    · exact absurd h (by simp)
    · rename_i s hr
      simp only [Except.ok.injEq] at h
      subst h
      refine ⟨s.left_laser_next, ?_⟩
      rw [turnMarks_append, ringFill_turnMarks, List.append_nil]
      exact runNotes_alt notes 0 initState s hr rfl
  · intro t p ln hp
    have hnp : ¬ p < 1 := by linarith
    unfold laserStep
    rw [if_pos ⟨rfl, hp⟩]
    simp [hnp]

/-- Claim C8, witness: the single-note run, whose only turn marker is one
left turn. -/
theorem C8_alternation_witness :
    ∃ b, altRun true (turnMarks
      [⟨1, 9, 0⟩, ⟨1, 4, 2⟩, ⟨1, 0, 0⟩, ⟨1, 3, 0⟩, ⟨1, 12, 3⟩, ⟨1, 2, 3⟩]) = some b :=
  C8_alternation.1 [⟨1, 0, 0⟩] _ (by
    norm_num [add_lighting_events, runNotes, findNext, noteStep, classifyStep, laserStep,
      calculate_laser_speed, backlightEvents, initState, ringPush, ringFill, ringStep,
      sweep, sweepGo, ringValueOf, toPaceEntry, ceil_via_floor, none_eq_some_false,
      char_0_ne_a, char_0_ne_b, char_b_ne_a, Option.some.injEq])

/-- Claim C10: the iteration body of a bomb leaves the whole carried state
except the event list untouched (last_padding, last_time, the alternation
flag, the pace log), and in a concrete run a non-bomb note whose time
equals the time of the immediately preceding bomb is fully processed (its
classification, at time 3/2, compares against the gap 1/2 of the last
non-bomb note and fires the sparse-onset pace marker, and its light and
laser events are all present). -/
theorem C10_bomb_state :
    (∀ (i : ℕ) (nt : NoteRec) (p : ℚ) (dbl : Bool) (s : SynthState), nt.type = 3 →
      noteStep i nt p dbl s = .ok { s with events := s.events ++ backlightEvents nt.time p }) ∧
    add_lighting_events [⟨1, 0, 0⟩, ⟨3/2, 3, 0⟩, ⟨3/2, 0, 0⟩, ⟨7/2, 0, 0⟩] =
      .ok [⟨1, 9, 0⟩, ⟨1, 4, 6⟩, ⟨1, 0, 0⟩, ⟨1, 3, 0⟩, ⟨1, 12, 7⟩, ⟨1, 2, 7⟩,
           ⟨3/2, 8, 0⟩, ⟨3/2, 0, 2⟩, ⟨3/2, 4, 0⟩,
           ⟨3/2, 9, 0⟩, ⟨3/2, 4, 3⟩, ⟨3/2, 0, 0⟩, ⟨3/2, 2, 0⟩, ⟨3/2, 13, 1⟩, ⟨3/2, 3, 3⟩,
           ⟨7/2, 4, 3⟩, ⟨7/2, 0, 0⟩, ⟨7/2, 3, 0⟩, ⟨7/2, 12, 1⟩, ⟨7/2, 2, 3⟩,
           ⟨1, 1, 7⟩] := by
  constructor
  · exact noteStep_bomb
  · norm_num [add_lighting_events, runNotes, findNext, noteStep, classifyStep, laserStep,
      calculate_laser_speed, backlightEvents, initState, ringPush, ringFill, ringStep,
      sweep, sweepGo, ringValueOf, toPaceEntry, ceil_via_floor, none_eq_some_false,
      char_0_ne_a, char_0_ne_b, char_b_ne_a, Option.some.injEq]

/-- Claim C10, witness: the state-preservation part at a concrete bomb and
the initial state. -/
theorem C10_bomb_state_witness :
    noteStep 0 ⟨1, 3, 0⟩ 1 false initState =
      .ok { initState with events := initState.events ++ backlightEvents 1 1 } :=
  C10_bomb_state.1 0 ⟨1, 3, 0⟩ 1 false initState rfl

end BeatSage
